import Mathlib

/-!
Verification of the validate-xml validation pipeline against its
natural-language specification.

The Rust sources are shallowly embedded: pure functions become Lean
functions, stateful code becomes explicit state passing, and the
concurrent orchestration becomes labelled-transition models whose valid
traces are exactly the interleavings the source permits.  Machine
integers are modelled as `Nat`/`Int`, with an explicit `% 2 ^ 64` where
u64 overflow matters.  External collaborators (the regex engine's glob
matchers, the HTTP transport, the filesystem) are modelled as explicit
function parameters or small data types, as the spec treats them as
opaque contracts.
-/

namespace ValidateXml

/-- Model of `ValidationError` (src/error.rs).  Payloads irrelevant to the
claims (io error sources, reqwest error internals) are elided: `Io` keeps no
message, `Http` keeps only whether `is_retryable_error` classifies the
underlying reqwest error as retryable (`is_timeout() || is_connect() ||
is_request()`). -/
inductive VError where
  | Io : VError
  | Http (retryable : Bool) : VError
  | HttpStatus (url : String) (status : Nat) (message : String) : VError
  | Timeout (url : String) (timeout_seconds : Nat) : VError
  | SchemaParsing (url : String) (details : String) : VError
  | ValidationFailed (file : String) (details : String) : VError
  | SchemaNotFound (url : String) : VError
  | Cache (details : String) : VError
  | Config (details : String) : VError
  | LibXml2Internal (details : String) : VError
  | SchemaUrlNotFound (file : String) : VError
  | Concurrency (details : String) : VError
deriving DecidableEq

/-! ## File discovery (src/file_discovery.rs) -/

/-- The last `/`-separated component of a path string
(`std::path::Path::file_name` for ordinary file paths). -/
def fileNameChars (p : List Char) : List Char :=
  (p.reverse.takeWhile (fun c => c ≠ '/')).reverse

/-- `std::path::Path::extension`: `none` when the file name has no `.`
after its first character, otherwise the portion after the final `.`. -/
def extensionChars (p : List Char) : Option (List Char) :=
  match fileNameChars p with
  | [] => none
  | _ :: rest =>
    if rest.contains '.' then
      some ((rest.reverse.takeWhile (fun c => c ≠ '.')).reverse)
    else none

/-- `str::to_lowercase` restricted to the simple one-to-one case mapping. -/
def lowerChars (l : List Char) : List Char := l.map Char.toLower

/-- Model of the `FileDiscovery` struct.  The compiled `regex::Regex`
include/exclude patterns are embedded as their `is_match` functions on the
path string (`path.to_string_lossy()`), since the regex engine is an
external library used only through `is_match`. -/
structure FileDiscovery where
  extensions : List String
  include_patterns : List (String → Bool)
  exclude_patterns : List (String → Bool)
  max_depth : Option Nat
  follow_symlinks : Bool

/-- `FileDiscovery::should_process`, line for line: extension gate first
(paths with no extension are rejected), then the exclude patterns, then —
only when include patterns exist — the include patterns. -/
def should_process (fd : FileDiscovery) (path : String) : Bool :=
  match extensionChars path.data with
  | some ext =>
    if !(fd.extensions.contains (String.mk (lowerChars ext))) then false
    else if fd.exclude_patterns.any (fun m => m path) then false
    else if !(fd.include_patterns.isEmpty) then
      fd.include_patterns.any (fun m => m path)
    else true
  | none => false

-- A filesystem tree for the discovery walk: a node is a regular file or a
-- directory of named entries, each flagged as symlink or not.  Per-entry
-- transient I/O errors (logged and skipped by the source) are not
-- representable: every reachable node has readable metadata.
mutual
inductive FsNode where
  | file : FsNode
  | dir : FsEntries → FsNode

inductive FsEntries where
  | nil : FsEntries
  | cons (name : String) (isSymlink : Bool) (node : FsNode) (rest : FsEntries) : FsEntries
end

/-- Does the entry-level depth check `depth > max_depth` fire? -/
def depthExceeded (fd : FileDiscovery) (depth : Nat) : Bool :=
  match fd.max_depth with
  | some m => depth > m
  | none => false

/-- Does the directory-descent check `depth >= max_depth` fire? -/
def depthAtLimit (fd : FileDiscovery) (depth : Nat) : Bool :=
  match fd.max_depth with
  | some m => depth ≥ m
  | none => false

-- discover_files_recursive / the directory-entry loop, mutually recursive
-- over the filesystem tree.
mutual
/-- `FileDiscovery::discover_files_recursive`: depth gate, then file ⇒
filter and emit, directory ⇒ descend unless at the depth limit. -/
def discover_files_recursive (fd : FileDiscovery) (path : String) (depth : Nat) :
    FsNode → List String
  | .file =>
    if depthExceeded fd depth then []
    else if should_process fd path then [path] else []
  | .dir entries =>
    if depthExceeded fd depth then []
    else if depthAtLimit fd depth then []
    else walkEntries fd path depth entries

/-- The `while let Some(entry) = read_dir.next_entry()` loop body: symlinks
are skipped unless `follow_symlinks`, every other entry is recursed into at
`depth + 1`. -/
def walkEntries (fd : FileDiscovery) (path : String) (depth : Nat) :
    FsEntries → List String
  | .nil => []
  | .cons name isSym node rest =>
    (if isSym && !fd.follow_symlinks then []
     else discover_files_recursive fd (path ++ "/" ++ name) (depth + 1) node)
      ++ walkEntries fd path depth rest
end

/-- The top-level `read_dir(root)` loop of `discover_files`: each root
entry is processed at depth 0 (symlink check as in the inner loop). -/
def discoverTopLevel (fd : FileDiscovery) (root : String) : FsEntries → List String
  | .nil => []
  | .cons name isSym node rest =>
    (if isSym && !fd.follow_symlinks then []
     else discover_files_recursive fd (root ++ "/" ++ name) 0 node)
      ++ discoverTopLevel fd root rest

/-- `FileDiscovery::discover_files`.  The function opens with
`fs::read_dir(root)`, which fails with an I/O error when `root` is a
regular file, so a file root yields `Err(ValidationError::Io)`. -/
def discover_files (fd : FileDiscovery) (root : String) (rootNode : FsNode) :
    Except VError (List String) :=
  match rootNode with
  | .file => .error .Io
  | .dir entries => .ok (discoverTopLevel fd root entries)

/-! ## Schema-reference extraction (src/schema_loader.rs) -/

/-- The `\s` character class of the regex crate, restricted to the ASCII
whitespace characters that can occur on a line read by `lines()`. -/
def isSpaceChar (c : Char) : Bool :=
  c == ' ' || c == '\t' || c == '\n' || c == '\r' || c == '\x0b' || c == '\x0c'

/-- The `(.+?)"` tail shared by both schema-location regexes: the lazy
capture takes the shortest non-empty run of characters followed by a `"`,
i.e. at least one character and then everything before the next `"`. -/
def lazyCapture : List Char → Option (List Char)
  | [] => none
  | c :: rest =>
    if '"' ∈ rest then some (c :: rest.takeWhile (fun ch => ch != '"'))
    else none

/-- Backtracking over the greedy `\s+`: first the maximal whitespace run is
consumed, and on failure of the `(.+?)"` tail one whitespace character at a
time is given back (at least one must stay consumed).  `wsRev` holds the
still-returnable consumed whitespace, nearest character first. -/
def wsBacktrack : List Char → List Char → Option (List Char)
  | wsRev, rest =>
    match lazyCapture rest with
    | some cap => some cap
    | none =>
      match wsRev with
      | [] => none
      | [_] => none
      | w :: wsRev2 => wsBacktrack wsRev2 (w :: rest)

/-- The `\S+\s+(.+?)"` tail of the `xsi:schemaLocation` regex, applied
directly after the literal marker: a maximal non-empty non-whitespace run,
a non-empty whitespace run (greedy, with backtracking), then the lazy
capture up to the next `"`. -/
def matchSchemaLocTail (l : List Char) : Option (List Char) :=
  let tok := l.takeWhile (fun c => !(isSpaceChar c))
  let rest1 := l.dropWhile (fun c => !(isSpaceChar c))
  if tok.isEmpty then none
  else
    let ws := rest1.takeWhile isSpaceChar
    let rest2 := rest1.dropWhile isSpaceChar
    if ws.isEmpty then none else wsBacktrack ws.reverse rest2

/-- Strip a literal from the front of the input, or fail. -/
def dropLiteral : List Char → List Char → Option (List Char)
  | [], l => some l
  | _ :: _, [] => none
  | m :: ms, c :: cs => if c = m then dropLiteral ms cs else none

/-- Leftmost-match search: at each start position try the literal marker
followed by the given tail matcher; the first position where the whole
pattern matches yields its capture. -/
def regexFind (tailMatch : List Char → Option (List Char)) (marker : List Char) :
    List Char → Option (List Char)
  | [] => none
  | c :: t =>
    match dropLiteral marker (c :: t) with
    | some after =>
      match tailMatch after with
      | some cap => some cap
      | none => regexFind tailMatch marker t
    | none => regexFind tailMatch marker t

/-- The capture of `get_schema_location_regex`,
`xsi:schemaLocation="\S+\s+(.+?)"`, on one line. -/
def schema_location_regex_capture (line : List Char) : Option (List Char) :=
  regexFind matchSchemaLocTail ("xsi:schemaLocation=\"").data line

/-- The capture of `get_no_namespace_regex`,
`xsi:noNamespaceSchemaLocation="(.+?)"`, on one line. -/
def no_namespace_regex_capture (line : List Char) : Option (List Char) :=
  regexFind lazyCapture ("xsi:noNamespaceSchemaLocation=\"").data line

/-- `SchemaSourceType` (src/schema_loader.rs). -/
inductive SchemaSourceType where
  | Local (path : String) : SchemaSourceType
  | Remote (url : String) : SchemaSourceType
deriving DecidableEq

/-- `str::starts_with`, as the character-list prefix test. -/
def strStartsWith (s pre : String) : Bool := pre.data.isPrefixOf s.data

/-- `Path::parent` composed with display, for ordinary relative or absolute
file paths: the part before the last `/`, or `.` when there is none. -/
def parentDir (p : String) : String :=
  if p.data.contains '/' then
    String.mk (((p.data.reverse.dropWhile (fun c => c ≠ '/')).drop 1).reverse)
  else "."

/-- `SchemaExtractor::determine_source_type`: `http(s)://` URIs are remote;
other references are local paths, relative ones resolved against the XML
file's directory. -/
def determine_source_type (url : String) (xml_file_path : String) : SchemaSourceType :=
  if strStartsWith url "http://" || strStartsWith url "https://" then .Remote url
  else if strStartsWith url "/" then .Local url
  else .Local (parentDir xml_file_path ++ "/" ++ url)

/-- `SchemaReference` (src/schema_loader.rs). -/
structure SchemaReference where
  url : String
  source_type : SchemaSourceType
deriving DecidableEq

/-- `str::trim_start` on a line's characters. -/
def trimStartChars (l : List Char) : List Char := l.dropWhile isSpaceChar

/-- The `line.trim_start().starts_with("</")` early-exit test of the
extraction loop. -/
def lineIsClosing (line : List Char) : Bool :=
  match trimStartChars line with
  | c1 :: c2 :: _ => c1 == '<' && c2 == '/'
  | _ => false

/-- The `while let Some(line) = lines.next_line()` body of
`extract_schema_urls`: on each line first the `xsi:schemaLocation` capture
is pushed (if any), then the `xsi:noNamespaceSchemaLocation` capture, and
the loop stops after a line whose trimmed start is `</`. -/
def extractLoop (file_path : String) :
    List (List Char) → List SchemaReference → List SchemaReference
  | [], acc => acc
  | line :: rest, acc =>
    let acc1 :=
      match schema_location_regex_capture line with
      | some cap =>
        acc ++ [⟨String.mk cap, determine_source_type (String.mk cap) file_path⟩]
      | none => acc
    let acc2 :=
      match no_namespace_regex_capture line with
      | some cap =>
        acc1 ++ [⟨String.mk cap, determine_source_type (String.mk cap) file_path⟩]
      | none => acc1
    if lineIsClosing line then acc2 else extractLoop file_path rest acc2

/-- `SchemaExtractor::extract_schema_urls`, with the file contents given as
its list of lines: scan for schema references; an empty result is the
`SchemaUrlNotFound` error. -/
def extract_schema_urls (file_path : String) (lines : List (List Char)) :
    Except VError (List SchemaReference) :=
  let refs := extractLoop file_path lines []
  if refs.isEmpty then .error (.SchemaUrlNotFound file_path) else .ok refs

/-! ## Validation engine (src/validator.rs, src/libxml2.rs) -/

/-- `ValidationStatus` (src/validator.rs). -/
inductive ValidationStatus where
  | Valid : ValidationStatus
  | Invalid (error_count : Int) : ValidationStatus
  | Error (message : String) : ValidationStatus
  | Skipped (reason : String) : ValidationStatus
deriving DecidableEq

/-- `ValidationStatus::is_valid`. -/
def ValidationStatus.is_valid : ValidationStatus → Bool
  | .Valid => true
  | _ => false

/-- `libxml2::ValidationResult`. -/
inductive EngineValidationResult where
  | Valid : EngineValidationResult
  | Invalid (error_count : Int) (errors : List String) : EngineValidationResult
  | InternalError (code : Int) : EngineValidationResult
deriving DecidableEq

/-- The result of a `tokio::task::spawn_blocking` join: either the closure's
value or a join error. -/
inductive JoinResult (α : Type) where
  | joined (a : α) : JoinResult α
  | joinError (details : String) : JoinResult α

/-- The `Display` rendering of the modelled `ValidationError` variants
(the `#[error(...)]` format strings of src/error.rs; elided payloads render
without their detail text). -/
def errToString : VError → String
  | .Io => "IO error"
  | .Http _ => "HTTP error"
  | .HttpStatus url status message =>
    "HTTP status error: " ++ toString status ++ " for " ++ url ++ " - " ++ message
  | .Timeout url secs => "Request timeout: " ++ url ++ " after " ++ toString secs ++ " seconds"
  | .SchemaParsing url details => "Schema parsing error: " ++ url ++ " - " ++ details
  | .ValidationFailed file details => "XML validation failed: " ++ file ++ " - " ++ details
  | .SchemaNotFound url => "Schema not found: " ++ url
  | .Cache s => "Cache error: " ++ s
  | .Config s => "Configuration error: " ++ s
  | .LibXml2Internal details => "LibXML2 internal error: " ++ details
  | .SchemaUrlNotFound file =>
    "Schema URL extraction failed: " ++ file ++ " - no schema location found"
  | .Concurrency details => "Concurrent operation error: " ++ details

/-- `FileValidationResult` (src/validator.rs).  Durations are not modelled
(wall-clock time); the field is kept with value 0 from the constructors. -/
structure FileValidationResult where
  path : String
  status : ValidationStatus
  schema_url : Option String
  duration : Nat
  error_details : List String
deriving DecidableEq

/-- `FileValidationResult::valid`. -/
def FileValidationResult.valid (path schema_url : String) (duration : Nat) :
    FileValidationResult :=
  ⟨path, .Valid, some schema_url, duration, []⟩

/-- `FileValidationResult::invalid`. -/
def FileValidationResult.invalid (path schema_url : String) (error_count : Int)
    (duration : Nat) (error_details : List String) : FileValidationResult :=
  ⟨path, .Invalid error_count, some schema_url, duration, error_details⟩

/-- `FileValidationResult::error`. -/
def FileValidationResult.error (path : String) (e : VError) (duration : Nat) :
    FileValidationResult :=
  ⟨path, .Error (errToString e), none, duration, [errToString e]⟩

/-- `FileValidationResult::skipped`. -/
def FileValidationResult.skipped (path reason : String) (duration : Nat) :
    FileValidationResult :=
  ⟨path, .Skipped reason, none, duration, [reason]⟩

/-- Instrumentation of the work a per-file task hands to the resolution
layer and the engine. -/
inductive EngineCall where
  | resolveSchema (url : String) : EngineCall
  | engineValidate (path : String) : EngineCall
deriving DecidableEq

/-- `ValidationEngine::validate_single_file_internal`.  The extraction
result, the resolver (`cache().parsed().get_or_load` with its
load-bytes-then-parse builder, whose compiled-schema handle is opaque here)
and the engine's `validate_file` run are explicit parameters; the second
component records, in order, the resolution and engine work the control
flow actually requests. -/
def validate_single_file_internal (file_path : String)
    (extract : Except VError (List SchemaReference))
    (resolveSchema : String → Except VError Unit)
    (engineValidate : String → JoinResult (Except VError EngineValidationResult)) :
    FileValidationResult × List EngineCall :=
  match extract with
  | .ok refs =>
    match refs with
    | [] => (.skipped file_path "No schema URL found in XML file" 0, [])
    | r :: _ =>
      let target_url := r.url
      match resolveSchema target_url with
      | .error e => (.error file_path e 0, [.resolveSchema target_url])
      | .ok _ =>
        match engineValidate file_path with
        | .joined (.ok .Valid) =>
          (.valid file_path target_url 0, [.resolveSchema target_url, .engineValidate file_path])
        | .joined (.ok (.Invalid ec errs)) =>
          (.invalid file_path target_url ec 0 errs,
           [.resolveSchema target_url, .engineValidate file_path])
        | .joined (.ok (.InternalError code)) =>
          (.error file_path (.LibXml2Internal ("Internal error code: " ++ toString code)) 0,
           [.resolveSchema target_url, .engineValidate file_path])
        | .joined (.error e) =>
          (.error file_path e 0, [.resolveSchema target_url, .engineValidate file_path])
        | .joinError d =>
          (.error file_path (.Concurrency ("Join error: " ++ d)) 0,
           [.resolveSchema target_url, .engineValidate file_path])
  | .error (.SchemaUrlNotFound _) =>
    (.skipped file_path "No schema URL found in XML file" 0, [])
  | .error e => (.error file_path e 0, [])

/-! ## Result aggregation (ValidationResults::aggregate) -/

/-- The per-status counters of the aggregation loop, accumulated in result
order: (valid, invalid, error, skipped). -/
def aggregateCounts : List FileValidationResult → Nat × Nat × Nat × Nat
  | [] => (0, 0, 0, 0)
  | r :: rs =>
    let (v, i, e, s) := aggregateCounts rs
    match r.status with
    | .Valid => (v + 1, i, e, s)
    | .Invalid _ => (v, i + 1, e, s)
    | .Error _ => (v, i, e + 1, s)
    | .Skipped _ => (v, i, e, s + 1)

/-- One iteration of the `schemas_used` HashSet insertion: a present
`schema_url` is added unless already present. -/
def schemasInsert (acc : List String) (r : FileValidationResult) : List String :=
  match r.schema_url with
  | some u => if u ∈ acc then acc else u :: acc
  | none => acc

/-- The `schemas_used` HashSet of the aggregation loop: each present
`schema_url` is inserted once. -/
def schemasUsedOf (rs : List FileValidationResult) : List String :=
  rs.foldl schemasInsert []

/-- `ValidationResults` (src/validator.rs), without the performance-metrics
block (wall-clock durations, throughput floats and memory probes are not
modelled beyond the summed per-file durations). -/
structure ValidationResults where
  total_files : Nat
  valid_files : Nat
  invalid_files : Nat
  error_files : Nat
  skipped_files : Nat
  total_duration : Nat
  average_duration : Nat
  file_results : List FileValidationResult
  schemas_used : List String
deriving DecidableEq

/-- `ValidationResults::aggregate`. -/
def aggregate (file_results : List FileValidationResult) : ValidationResults :=
  let total_files := file_results.length
  let counts := aggregateCounts file_results
  let total_duration := (file_results.map (fun r => r.duration)).sum
  { total_files := total_files
    valid_files := counts.1
    invalid_files := counts.2.1
    error_files := counts.2.2.1
    skipped_files := counts.2.2.2
    total_duration := total_duration
    average_duration := if total_files > 0 then total_duration / total_files else 0
    file_results := file_results
    schemas_used := schemasUsedOf file_results }

/-- `ValidationResults::has_errors`. -/
def has_errors (r : ValidationResults) : Bool :=
  r.error_files > 0 || r.invalid_files > 0

/-- The exit-code selection at the end of `main` (src/main.rs): fail-fast
with any invalid/error outcome exits 1, otherwise errors exit 2, invalid
files exit 3, and a fully valid run exits 0. -/
def mainExitCode (r : ValidationResults) (fail_fast : Bool) : Nat :=
  if has_errors r && fail_fast then 1
  else if r.error_files > 0 then 2
  else if r.invalid_files > 0 then 3
  else 0

/-! ## The orchestrator (ValidationEngine::validate_files_with_progress) -/

/-- `ValidationConfig` (src/validator.rs). -/
structure ValidationConfig where
  max_concurrent_validations : Nat
  validation_timeout : Nat
  fail_fast : Bool
  show_progress : Bool
  collect_metrics : Bool
deriving DecidableEq

/-- The sequential denotation of `validate_files_with_progress`: one task
per input file (`files.into_iter().map(|p| tokio::spawn(...)).collect()`),
results joined in spawn order, and the first task-level error propagated by
the `for result in task_results { file_results.push(result?) }` loop. -/
def collectTaskResults :
    List (Except VError FileValidationResult) → Except VError (List FileValidationResult)
  | [] => .ok []
  | .error e :: _ => .error e
  | .ok r :: rest =>
    match collectTaskResults rest with
    | .ok rs => .ok (r :: rs)
    | .error e => .error e

/-- `validate_files_with_progress` with the per-file task body abstracted
as a function from path to task result.  Note that `self.config.fail_fast`
is not read anywhere in the source of this function: every file gets a
task. -/
def validate_files_with_progress (task : String → Except VError FileValidationResult)
    (files : List String) : Except VError (List FileValidationResult) :=
  collectTaskResults (files.map task)

/-- An observable scheduling event of the orchestrator: a task being
spawned for a file, or a task completing with its outcome. -/
inductive OrchEvent where
  | spawn (file : String) : OrchEvent
  | complete (file : String) (status : ValidationStatus) : OrchEvent
deriving DecidableEq

/-- Scheduling state: files whose task is not yet spawned (spawned in input
order by the collect loop), tasks spawned but not completed, and completed
outcomes. -/
structure OrchState where
  pending : List String
  in_flight : List String
  completed : List (String × ValidationStatus)
deriving DecidableEq

/-- One scheduling step of `validate_files_with_progress`.  Spawning
consumes the pending list in program order and is unconditional: the spawn
loop contains no await and no read of `cfg.fail_fast` or of completed
outcomes (the config is threaded here to make that visible).  A completion
can occur for any in-flight task, with the outcome the task body computes
for that file. -/
def orchStep (_cfg : ValidationConfig) (outcome : String → ValidationStatus)
    (st : OrchState) : OrchEvent → Option OrchState
  | .spawn f =>
    match st.pending with
    | p :: rest =>
      if p = f then some { st with pending := rest, in_flight := st.in_flight ++ [f] }
      else none
    | [] => none
  | .complete f stv =>
    if f ∈ st.in_flight ∧ stv = outcome f then
      some { st with in_flight := st.in_flight.erase f,
                     completed := st.completed ++ [(f, stv)] }
    else none

/-- Run a candidate event trace from a state; `none` means the trace is not
an execution the source permits. -/
def orchRun (cfg : ValidationConfig) (outcome : String → ValidationStatus) :
    OrchState → List OrchEvent → Option OrchState
  | st, [] => some st
  | st, ev :: tr =>
    match orchStep cfg outcome st ev with
    | some st2 => orchRun cfg outcome st2 tr
    | none => none

/-- A trace is a valid (partial) execution of the orchestrator on the given
file list. -/
def orchTraceValid (cfg : ValidationConfig) (outcome : String → ValidationStatus)
    (files : List String) (tr : List OrchEvent) : Bool :=
  (orchRun cfg outcome ⟨files, [], []⟩ tr).isSome

/-! ## Disk cache (src/cache.rs) -/

/-- `CacheMetadata` (src/cache.rs); `DateTime<Utc>` instants are modelled
as integers. -/
structure CacheMetadata where
  key : String
  url : String
  created_at : Int
  expires_at : Int
  size_bytes : Nat
  etag : Option String
  last_modified : Option String
deriving DecidableEq

/-- `CacheMetadata::is_expired`: `Utc::now() > self.expires_at`, with the
current instant passed explicitly. -/
def CacheMetadata.is_expired (m : CacheMetadata) (now : Int) : Bool :=
  now > m.expires_at

/-- A metadata file on disk either deserializes to a `CacheMetadata` or is
corrupt (present but unparseable JSON). -/
inductive MetaRecord where
  | parsed (m : CacheMetadata) : MetaRecord
  | corrupt : MetaRecord
deriving DecidableEq

/-- The on-disk state a `DiskCache` reads: the cacache data records and
the sibling metadata files, both keyed by cache key. -/
structure DiskState where
  data_records : List (String × List Nat)
  meta_records : List (String × MetaRecord)
deriving DecidableEq

/-- Association-list lookup (first binding wins). -/
def lookupRec {α : Type} (l : List (String × α)) (k : String) : Option α :=
  (l.find? (fun p => p.1 == k)).map Prod.snd

/-- `CachedSchema` (src/cache.rs). -/
structure CachedSchema where
  data : List Nat
  metadata : CacheMetadata
deriving DecidableEq

/-- `DiskCache::get_metadata`: a missing file is `Ok(None)`, an unparseable
file is a `Cache` error, otherwise the parsed record. -/
def get_metadata (st : DiskState) (key : String) : Except VError (Option CacheMetadata) :=
  match lookupRec st.meta_records key with
  | none => .ok none
  | some (.parsed m) => .ok (some m)
  | some .corrupt => .error (.Cache "Failed to parse metadata")

/-- `DiskCache::remove`: both the data record and the metadata record are
deleted (errors ignored by the source). -/
def diskRemove (st : DiskState) (key : String) : DiskState :=
  ⟨st.data_records.filter (fun p => !(p.1 == key)),
   st.meta_records.filter (fun p => !(p.1 == key))⟩

/-- `DiskCache::get`: the metadata is consulted first — a missing or
expired record opportunistically removes the entry and returns `None`;
otherwise the data record is read (`EntryNotFound` is `None`).  The second
component is the disk state after the call. -/
def DiskCache.get (st : DiskState) (now : Int) (key : String) :
    Except VError (Option CachedSchema) × DiskState :=
  match get_metadata st key with
  | .error e => (.error e, st)
  | .ok mo =>
    match mo with
    | some m =>
      if !(m.is_expired now) then
        match lookupRec st.data_records key with
        | some d => (.ok (some ⟨d, m⟩), st)
        | none => (.ok none, st)
      else (.ok none, diskRemove st key)
    | none => (.ok none, diskRemove st key)

/-! ## HTTP fetcher (src/http_client.rs) -/

/-- `HttpClientConfig` (src/http_client.rs). -/
structure HttpClientConfig where
  timeout_seconds : Nat
  retry_attempts : Nat
  retry_delay_ms : Nat
  max_retry_delay_ms : Nat
  user_agent : String
deriving DecidableEq

/-- What one `make_request` attempt can observe: an HTTP response with a
status code, a transport error (tagged with whether `is_retryable_error`
classifies it as retryable), or the tokio timeout firing. -/
inductive RequestOutcome where
  | response (status : Nat) : RequestOutcome
  | transportError (retryable : Bool) : RequestOutcome
  | timedOut : RequestOutcome
deriving DecidableEq

/-- `StatusCode::is_success`: 200..=299. -/
def statusIsSuccess (s : Nat) : Bool := 200 ≤ s && s ≤ 299

/-- `StatusCode::is_server_error`: 500..=599. -/
def statusIsServerError (s : Nat) : Bool := 500 ≤ s && s ≤ 599

/-- `StatusCode::is_client_error`: 400..=499. -/
def statusIsClientError (s : Nat) : Bool := 400 ≤ s && s ≤ 499

/-- The delay computed by `wait_before_retry`:
`retry_delay_ms * 2_u64.pow(attempt)` in wrapping u64 arithmetic, capped by
`max_retry_delay_ms`. -/
def wait_before_retry_delay (cfg : HttpClientConfig) (attempt : Nat) : Nat :=
  min ((cfg.retry_delay_ms * 2 ^ attempt) % 2 ^ 64) cfg.max_retry_delay_ms

/-- `AsyncHttpClient::get_response_with_retry`, with the attempts' network
behaviour given by an oracle indexed by attempt number.  Returns the final
result (the successful status code, or the error returned) together with
the list of backoff delays slept, in order.  Success returns immediately;
a non-success status retries only when it is a server error (5xx) and
attempts remain; a transport error or timeout retries only when retryable
and attempts remain. -/
def get_response_with_retry (cfg : HttpClientConfig) (url : String)
    (oracle : Nat → RequestOutcome) (attempt : Nat) :
    Except VError Nat × List Nat :=
  match oracle attempt with
  | .response s =>
    if statusIsSuccess s then (.ok s, [])
    else
      if statusIsServerError s ∧ attempt < cfg.retry_attempts then
        let d := wait_before_retry_delay cfg attempt
        let rec1 := get_response_with_retry cfg url oracle (attempt + 1)
        (rec1.1, d :: rec1.2)
      else (.error (.HttpStatus url s ("HTTP " ++ toString s)), [])
  | .transportError retryable =>
    if attempt < cfg.retry_attempts ∧ retryable then
      let d := wait_before_retry_delay cfg attempt
      let rec1 := get_response_with_retry cfg url oracle (attempt + 1)
      (rec1.1, d :: rec1.2)
    else (.error (.Http retryable), [])
  | .timedOut =>
    if attempt < cfg.retry_attempts then
      let d := wait_before_retry_delay cfg attempt
      let rec1 := get_response_with_retry cfg url oracle (attempt + 1)
      (rec1.1, d :: rec1.2)
    else (.error (.Timeout url cfg.timeout_seconds), [])
termination_by cfg.retry_attempts - attempt
decreasing_by all_goals omega

/-! ## Schema-parse concurrency (ParsedSchemaCache::get_or_load and the
spawn_blocking parse offload) -/

/-- An observable event of the libxml2 schema parser: a
`parse_schema_from_memory` call for a URI's bytes starting on some blocking
worker, or such a call returning. -/
inductive ParseEvent where
  | parseStart (url : String) : ParseEvent
  | parseEnd (url : String) : ParseEvent
deriving DecidableEq

/-- Which traces of parser events the source permits.  `moka`'s
`try_get_with` single-flights the loader per key, so for one URI a second
parse cannot start while one is in flight; but the loaders of distinct URIs
run on independent `tokio::task::spawn_blocking` workers and neither
`cache.rs`, `validator.rs` nor `libxml2.rs` holds any lock across the parse
call, so starts of distinct URIs are unconstrained.  `active` is the set of
URIs whose parse is currently in flight. -/
def parseTraceOk (active : List String) : List ParseEvent → Bool
  | [] => true
  | .parseStart u :: tr => if u ∈ active then false else parseTraceOk (u :: active) tr
  | .parseEnd u :: tr => if u ∈ active then parseTraceOk (active.erase u) tr else false

/-- The URIs whose parse is in flight after processing the given events. -/
def parsesActiveAfter (active : List String) : List ParseEvent → List String
  | [] => active
  | .parseStart u :: tr => parsesActiveAfter (u :: active) tr
  | .parseEnd u :: tr => parsesActiveAfter (active.erase u) tr

/-- Whether one attempt's outcome is one the retry loop retries (when
attempts remain): a 5xx response, or an error `is_retryable_error` accepts
(retryable transport errors and timeouts). -/
def retryableOutcome : RequestOutcome → Bool
  | .response s => statusIsServerError s
  | .transportError rb => rb
  | .timedOut => true

/-! ## Concrete instances used by counterexamples and witnesses -/

/-- `FileDiscovery::new()`: extension list `["xml"]`, no patterns, unbounded
depth, symlinks not followed. -/
def FileDiscovery.new : FileDiscovery :=
  { extensions := ["xml"], include_patterns := [], exclude_patterns := []
    max_depth := none, follow_symlinks := false }

/-- Suffix test on path strings, used as a stand-in compiled glob matcher
(e.g. the matcher of the glob `**/*.xml`). -/
def sampleEndsWith (suff : String) (p : String) : Bool :=
  decide (suff.data.length ≤ p.data.length) &&
  decide (p.data.drop (p.data.length - suff.data.length) = suff.data)

/-- A discovery configuration exercising every filter: extension list,
one include glob matcher and one exclude glob matcher, and a depth limit. -/
def fdSample : FileDiscovery :=
  { extensions := ["xml"]
    include_patterns := [sampleEndsWith ".xml"]
    exclude_patterns := [sampleEndsWith "skip.xml"]
    max_depth := some 3
    follow_symlinks := false }

/-- A root directory holding one matching file and one subdirectory with a
non-matching file. -/
def fsSample : FsEntries :=
  .cons "a.xml" false .file (.cons "sub" false (.dir (.cons "b.txt" false .file .nil)) .nil)

/-- A validation configuration with `fail_fast` set (concurrency 1, as in
the spec's fail-fast scenario E7). -/
def cfgFailFast : ValidationConfig :=
  { max_concurrent_validations := 1, validation_timeout := 30, fail_fast := true
    show_progress := false, collect_metrics := true }

/-- An identical configuration with `fail_fast` cleared. -/
def cfgNoFailFast : ValidationConfig :=
  { cfgFailFast with fail_fast := false }

/-- Task outcomes where `a.xml` is invalid and every other file valid. -/
def outcomeAB (f : String) : ValidationStatus :=
  if f = "a.xml" then .Invalid 1 else .Valid

/-- An orchestrator trace the source permits: the task of `a.xml` is
spawned and completes with a non-Valid outcome while the spawning loop has
not yet reached `b.xml`, whose task is then spawned. -/
def trFailFast : List OrchEvent :=
  [.spawn "a.xml", .complete "a.xml" (.Invalid 1), .spawn "b.xml"]

/-- A completed orchestrator trace over the same two files: both tasks are
spawned and both run to completion. -/
def trComplete : List OrchEvent :=
  [.spawn "a.xml", .complete "a.xml" (.Invalid 1),
   .spawn "b.xml", .complete "b.xml" .Valid]

/-- The default `HttpClientConfig` (30 s timeout, 3 retries, 1000 ms base
delay, 30000 ms cap). -/
def httpCfgDefault : HttpClientConfig :=
  { timeout_seconds := 30, retry_attempts := 3, retry_delay_ms := 1000
    max_retry_delay_ms := 30000, user_agent := "validate-xml/0" }

/-- Cache metadata of an entry expiring at instant 10. -/
def metaSample : CacheMetadata :=
  { key := "schema_k", url := "http://example.com/s.xsd", created_at := 0
    expires_at := 10, size_bytes := 2, etag := none, last_modified := none }

/-- A disk state holding one entry (data and parsed metadata) under
`schema_k`. -/
def diskSample : DiskState :=
  ⟨[("schema_k", [60, 63])], [("schema_k", .parsed metaSample)]⟩

/-- A parser trace with the parses of two distinct schema URIs overlapping:
the second starts while the first is in flight. -/
def trTwoParses : List ParseEvent :=
  [.parseStart "http://example.com/s1.xsd", .parseStart "http://example.com/s2.xsd",
   .parseEnd "http://example.com/s1.xsd", .parseEnd "http://example.com/s2.xsd"]

/-- The line of the C3 counterexample: an `xsi:schemaLocation` attribute
whose value holds four whitespace-separated tokens. -/
def lineFourTokens : List Char :=
  ("<root xsi:schemaLocation=\"urn:ns uri1 ns2 uri2\">").data

/-- A task body validating every file successfully against one schema. -/
def taskAllValid (f : String) : Except VError FileValidationResult :=
  .ok (FileValidationResult.valid f "http://example.com/s.xsd" 0)

/-- The per-file result of `validate_single_file_internal` on a file whose
extraction reports `SchemaUrlNotFound`, with a resolver and engine that
would succeed if consulted. -/
def skippedRun : FileValidationResult × List EngineCall :=
  validate_single_file_internal "f.xml" (.error (.SchemaUrlNotFound "f.xml"))
    (fun _ => .ok ()) (fun _ => .joined (.ok .Valid))

/-! # Theorems -/

/-- C10: a path whose file name has no extension is rejected by
`should_process` — such a file is never discovered, whatever the configured
extension list, include globs or exclude globs. -/
theorem c10_no_extension_rejected (fd : FileDiscovery) (path : String)
    (h : extensionChars path.data = none) : should_process fd path = false := by
  unfold should_process
  rw [h]

/-- C10 witness: a concrete extensionless path under a configuration with a
non-trivial extension list and both glob sets. -/
theorem c10_no_extension_rejected_witness :
    extensionChars ("data/README").data = none ∧
    should_process fdSample "data/README" = false :=
  ⟨rfl, c10_no_extension_rejected fdSample "data/README" rfl⟩

/-- C2 counterexample: a root that is a regular file and passes every
filter.  The claim predicts `discover_files` returns `[root]`; the source
opens with `fs::read_dir(root)`, so the call fails with an I/O error
instead of returning a list at all. -/
theorem c2_file_root_counterexample :
    should_process FileDiscovery.new "root.xml" = true ∧
    discover_files FileDiscovery.new "root.xml" FsNode.file = .error .Io ∧
    discover_files FileDiscovery.new "root.xml" FsNode.file ≠ .ok ["root.xml"] ∧
    discover_files FileDiscovery.new "root.xml" FsNode.file ≠ .ok [] := by
  refine ⟨rfl, rfl, ?_, ?_⟩ <;> simp [discover_files]

/-- C2 amended: for every root path that is a regular file, discovery fails
with an `Io` error (from `read_dir` on a non-directory) without consulting
the filters; the CLI layer separately rejects non-directory roots. -/
theorem c2_file_root_is_io_error (fd : FileDiscovery) (root : String) :
    discover_files fd root FsNode.file = .error .Io := rfl

/-- A path accepted by `should_process` carries an allowed (lower-cased)
extension, matches no exclude pattern and, when include patterns exist,
matches at least one of them. -/
theorem should_process_spec (fd : FileDiscovery) (p : String)
    (h : should_process fd p = true) :
    (∃ ext, extensionChars p.data = some ext ∧
      fd.extensions.contains (String.mk (lowerChars ext)) = true) ∧
    (∀ m ∈ fd.exclude_patterns, m p = false) ∧
    (fd.include_patterns ≠ [] → ∃ m ∈ fd.include_patterns, m p = true) := by
  cases hext : extensionChars p.data with
  | none => simp [should_process, hext] at h
  | some ext =>
    simp [should_process, hext] at h
    obtain ⟨h1, h2, h3⟩ := h
    refine ⟨⟨ext, rfl, by simpa using h1⟩, h2, ?_⟩
    intro hne
    rcases h3 with h3 | h3
    · exact absurd h3 hne
    · exact h3

/-- A matching exclude pattern rejects the path before the include patterns
are consulted. -/
theorem exclude_dominates (fd : FileDiscovery) (p : String)
    (h : ∃ m ∈ fd.exclude_patterns, m p = true) : should_process fd p = false := by
  cases hext : extensionChars p.data with
  | none => simp [should_process, hext]
  | some ext =>
    simp [should_process, hext]
    intro _ hall
    obtain ⟨m, hm, hmp⟩ := h
    exact absurd (hall m hm) (by simp [hmp])

mutual
/-- Every path emitted by the recursive walk passed `should_process`. -/
theorem mem_discover_files_recursive (fd : FileDiscovery) (p : String) :
    ∀ (path : String) (depth : Nat) (node : FsNode),
      p ∈ discover_files_recursive fd path depth node → should_process fd p = true
  | path, depth, .file => fun h => by
    unfold discover_files_recursive at h
    by_cases h1 : depthExceeded fd depth = true
    · simp [h1] at h
    · rw [Bool.not_eq_true] at h1
      by_cases h2 : should_process fd path = true
      · simp [h1, h2] at h
        subst h
        exact h2
      · rw [Bool.not_eq_true] at h2
        simp [h1, h2] at h
  | path, depth, .dir es => fun h => by
    unfold discover_files_recursive at h
    by_cases h1 : depthExceeded fd depth = true
    · simp [h1] at h
    · rw [Bool.not_eq_true] at h1
      by_cases h2 : depthAtLimit fd depth = true
      · simp [h1, h2] at h
      · rw [Bool.not_eq_true] at h2
        simp [h1, h2] at h
        exact mem_walkEntries fd p path depth es h

/-- Every path emitted by the directory-entry loop passed `should_process`. -/
theorem mem_walkEntries (fd : FileDiscovery) (p : String) :
    ∀ (path : String) (depth : Nat) (es : FsEntries),
      p ∈ walkEntries fd path depth es → should_process fd p = true
  | path, depth, .nil => fun h => by simp [walkEntries] at h
  | path, depth, .cons name isSym node rest => fun h => by
    unfold walkEntries at h
    rcases List.mem_append.mp h with h1 | h2
    · by_cases hs : (isSym && !fd.follow_symlinks) = true
      · simp [hs] at h1
      · rw [Bool.not_eq_true] at hs
        rw [if_neg (by simp [hs])] at h1
        exact mem_discover_files_recursive fd p (path ++ "/" ++ name) (depth + 1) node h1
    · exact mem_walkEntries fd p path depth rest h2
end

/-- Every path emitted by the top-level `read_dir` loop passed
`should_process`. -/
theorem mem_discoverTopLevel (fd : FileDiscovery) (p : String) :
    ∀ (root : String) (es : FsEntries),
      p ∈ discoverTopLevel fd root es → should_process fd p = true
  | root, .nil => fun h => by simp [discoverTopLevel] at h
  | root, .cons name isSym node rest => fun h => by
    unfold discoverTopLevel at h
    rcases List.mem_append.mp h with h1 | h2
    · by_cases hs : (isSym && !fd.follow_symlinks) = true
      · simp [hs] at h1
      · rw [Bool.not_eq_true] at hs
        rw [if_neg (by simp [hs])] at h1
        exact mem_discover_files_recursive fd p (root ++ "/" ++ name) 0 node h1
    · exact mem_discoverTopLevel fd p root rest h2

/-- C6: every path returned by discovery ends in an allowed (case-folded)
extension, matches no exclude glob and, when the include set is non-empty,
matches at least one include glob; and a matching exclude pattern rejects a
path outright — the exclude check precedes the include check. -/
theorem c6_filter_correct :
    (∀ (fd : FileDiscovery) (root : String) (node : FsNode) (l : List String) (p : String),
      discover_files fd root node = .ok l → p ∈ l →
      (∃ ext, extensionChars p.data = some ext ∧
        fd.extensions.contains (String.mk (lowerChars ext)) = true) ∧
      (∀ m ∈ fd.exclude_patterns, m p = false) ∧
      (fd.include_patterns ≠ [] → ∃ m ∈ fd.include_patterns, m p = true)) ∧
    (∀ (fd : FileDiscovery) (p : String),
      (∃ m ∈ fd.exclude_patterns, m p = true) → should_process fd p = false) := by
  constructor
  · intro fd root node l p hok hmem
    cases node with
    | file => exact absurd hok (by simp [discover_files])
    | dir es =>
      have : l = discoverTopLevel fd root es := by
        simpa [discover_files] using hok.symm
      subst this
      exact should_process_spec fd p (mem_discoverTopLevel fd p root es hmem)
  · exact exclude_dominates

/-- C6 witness: a concrete walk under `fdSample` emitting one file, with the
three filter conditions instantiated for it. -/
theorem c6_filter_correct_witness :
    discover_files fdSample "r" (.dir fsSample) = .ok ["r/a.xml"] ∧
    ((∃ ext, extensionChars ("r/a.xml").data = some ext ∧
        fdSample.extensions.contains (String.mk (lowerChars ext)) = true) ∧
      (∀ m ∈ fdSample.exclude_patterns, m "r/a.xml" = false) ∧
      (fdSample.include_patterns ≠ [] → ∃ m ∈ fdSample.include_patterns, m "r/a.xml" = true)) :=
  ⟨rfl, c6_filter_correct.1 fdSample "r" (.dir fsSample) ["r/a.xml"] "r/a.xml" rfl (by simp)⟩

/-- Stripping a literal off a list that starts with it leaves the rest. -/
theorem dropLiteral_append : ∀ (m l : List Char), dropLiteral m (m ++ l) = some l
  | [], l => rfl
  | c :: ms, l => by simp [dropLiteral, dropLiteral_append ms l]

/-- `takeWhile` over a satisfying run followed by a failing element. -/
theorem takeWhile_append_stop (p : Char → Bool) :
    ∀ (l1 : List Char) (c : Char) (l2 : List Char),
      (∀ x ∈ l1, p x = true) → p c = false →
      (l1 ++ c :: l2).takeWhile p = l1
  | [], c, l2, _, hc => by simp [List.takeWhile_cons, hc]
  | a :: l1, c, l2, h, hc => by
    have ha : p a = true := h a (by simp)
    simp only [List.cons_append, List.takeWhile_cons, ha, if_true]
    rw [takeWhile_append_stop p l1 c l2 (fun x hx => h x (by simp [hx])) hc]

/-- `dropWhile` over a satisfying run followed by a failing element. -/
theorem dropWhile_append_stop (p : Char → Bool) :
    ∀ (l1 : List Char) (c : Char) (l2 : List Char),
      (∀ x ∈ l1, p x = true) → p c = false →
      (l1 ++ c :: l2).dropWhile p = c :: l2
  | [], c, l2, _, hc => by simp [List.dropWhile_cons, hc]
  | a :: l1, c, l2, h, hc => by
    have ha : p a = true := h a (by simp)
    simp only [List.cons_append, List.dropWhile_cons, ha, if_true]
    exact dropWhile_append_stop p l1 c l2 (fun x hx => h x (by simp [hx])) hc

/-- A leftmost-match search on input starting with the marker, whose tail
matches, returns that capture. -/
theorem regexFind_here (tailMatch : List Char → Option (List Char)) :
    ∀ (marker l cap : List Char), marker ≠ [] → tailMatch l = some cap →
      regexFind tailMatch marker (marker ++ l) = some cap
  | [], l, cap, hne, _ => absurd rfl hne
  | mc :: mt, l, cap, _, hm => by
    simp [regexFind, dropLiteral, dropLiteral_append, hm]

/-- When the lazy capture succeeds on the input as given, no whitespace is
handed back by the backtracking. -/
theorem wsBacktrack_of_capture (wsRev rest cap : List Char)
    (h : lazyCapture rest = some cap) : wsBacktrack wsRev rest = some cap := by
  cases wsRev with
  | nil => simp [wsBacktrack, h]
  | cons w ws =>
    cases ws with
    | nil => simp [wsBacktrack, h]
    | cons b bs => simp [wsBacktrack, h]

/-- The lazy capture on input of the form `value ++ '"' ++ post`, with no
quote inside the value, captures the whole value. -/
theorem lazyCapture_shape (r0 : Char) (rr post : List Char) (h4 : '"' ∉ rr) :
    lazyCapture (r0 :: (rr ++ '"' :: post)) = some (r0 :: rr) := by
  rw [show lazyCapture (r0 :: (rr ++ '"' :: post)) =
      (if '"' ∈ (rr ++ '"' :: post) then
        some (r0 :: (rr ++ '"' :: post).takeWhile (fun ch => ch != '"')) else none) from rfl]
  have hmem : '"' ∈ rr ++ '"' :: post := by simp
  rw [if_pos hmem]
  have ht : (rr ++ '"' :: post).takeWhile (fun ch => ch != '"') = rr :=
    takeWhile_append_stop (fun ch => ch != '"') rr '"' post
      (fun x hx => by
        have hne : x ≠ '"' := fun e => h4 (e ▸ hx)
        simp [hne])
      (by simp)
  rw [ht]

/-- On an attribute value of the shape `token ws value"`, the regex tail
`\S+\s+(.+?)"` captures the entire `value`, up to the closing quote. -/
theorem matchSchemaLocTail_shape (t1 : List Char) (r0 : Char) (rr post : List Char)
    (h1 : t1 ≠ []) (h2 : ∀ c ∈ t1, isSpaceChar c = false)
    (h3 : isSpaceChar r0 = false) (h4 : '"' ∉ rr) :
    matchSchemaLocTail (t1 ++ ' ' :: (r0 :: (rr ++ '"' :: post))) = some (r0 :: rr) := by
  unfold matchSchemaLocTail
  have htok : (t1 ++ ' ' :: (r0 :: (rr ++ '"' :: post))).takeWhile (fun c => !(isSpaceChar c)) = t1 :=
    takeWhile_append_stop _ t1 ' ' _ (fun x hx => by simp [h2 x hx]) (by simp [isSpaceChar])
  have hdrop : (t1 ++ ' ' :: (r0 :: (rr ++ '"' :: post))).dropWhile (fun c => !(isSpaceChar c)) =
      ' ' :: (r0 :: (rr ++ '"' :: post)) :=
    dropWhile_append_stop _ t1 ' ' _ (fun x hx => by simp [h2 x hx]) (by simp [isSpaceChar])
  rw [htok, hdrop]
  dsimp only
  have hne : t1.isEmpty = false := by
    cases t1 with
    | nil => exact absurd rfl h1
    | cons a l => rfl
  rw [hne]
  simp only [Bool.false_eq_true, if_false]
  have hsp : isSpaceChar ' ' = true := rfl
  have hws : (' ' :: (r0 :: (rr ++ '"' :: post))).takeWhile isSpaceChar = [' '] := by
    rw [List.takeWhile_cons, if_pos hsp, List.takeWhile_cons, h3]
    simp
  have hws2 : (' ' :: (r0 :: (rr ++ '"' :: post))).dropWhile isSpaceChar = r0 :: (rr ++ '"' :: post) := by
    rw [List.dropWhile_cons, if_pos hsp, List.dropWhile_cons, h3]
    simp
  rw [hws, hws2]
  rw [List.isEmpty_cons]
  simp only [Bool.false_eq_true, if_false]
  exact wsBacktrack_of_capture _ _ _ (lazyCapture_shape r0 rr post h4)

/-- C3 counterexample: an `xsi:schemaLocation` value with four
whitespace-separated tokens, `urn:ns uri1 ns2 uri2`.  The claim predicts
the extracted schema URI is the second token `uri1`; the extractor returns
`uri1 ns2 uri2` — everything up to the closing quote. -/
theorem c3_second_token_counterexample :
    extract_schema_urls "dir/f.xml" [lineFourTokens] =
      .ok [⟨"uri1 ns2 uri2", .Local "dir/uri1 ns2 uri2"⟩] ∧
    ("uri1 ns2 uri2" : String) ≠ "uri1" :=
  ⟨by rfl, by decide⟩

/-- C3 amended: on a line carrying `xsi:schemaLocation="<token> <value>"`,
the extractor returns the whole `<value>` — the text from the second
whitespace-separated token through the closing quote — as the schema URI;
this equals the second token exactly when the value holds no further
whitespace. -/
theorem c3_capture_extends_to_quote (fp : String) (t1 : List Char) (r0 : Char)
    (rr post : List Char)
    (h1 : t1 ≠ []) (h2 : ∀ c ∈ t1, isSpaceChar c = false)
    (h3 : isSpaceChar r0 = false) (h4 : '"' ∉ rr)
    (h5 : no_namespace_regex_capture
      (("xsi:schemaLocation=\"").data ++ (t1 ++ ' ' :: (r0 :: (rr ++ '"' :: post)))) = none) :
    extract_schema_urls fp
      [("xsi:schemaLocation=\"").data ++ (t1 ++ ' ' :: (r0 :: (rr ++ '"' :: post)))] =
      .ok [⟨String.mk (r0 :: rr), determine_source_type (String.mk (r0 :: rr)) fp⟩] := by
  have hcap : schema_location_regex_capture
      (("xsi:schemaLocation=\"").data ++ (t1 ++ ' ' :: (r0 :: (rr ++ '"' :: post)))) =
      some (r0 :: rr) :=
    regexFind_here matchSchemaLocTail _ _ _ (by decide)
      (matchSchemaLocTail_shape t1 r0 rr post h1 h2 h3 h4)
  have hloop : extractLoop fp
      [("xsi:schemaLocation=\"").data ++ (t1 ++ ' ' :: (r0 :: (rr ++ '"' :: post)))] [] =
      [⟨String.mk (r0 :: rr), determine_source_type (String.mk (r0 :: rr)) fp⟩] := by
    simp only [extractLoop, hcap, h5, List.nil_append]
    rw [ite_self]
  unfold extract_schema_urls
  dsimp only
  rw [hloop]
  rfl

/-- C3 witness: the amended theorem instantiated at the four-token value
`urn:ns uri1 ns2 uri2`; the captured URI is `uri1 ns2 uri2`. -/
theorem c3_capture_extends_to_quote_witness :
    extract_schema_urls "d/f.xml"
      [("xsi:schemaLocation=\"").data ++
        (("urn:ns").data ++ ' ' :: ('u' :: (("ri1 ns2 uri2").data ++ '"' :: (">").data)))] =
      .ok [⟨String.mk ('u' :: ("ri1 ns2 uri2").data),
            determine_source_type (String.mk ('u' :: ("ri1 ns2 uri2").data)) "d/f.xml"⟩] :=
  c3_capture_extends_to_quote "d/f.xml" ("urn:ns").data 'u' ("ri1 ns2 uri2").data (">").data
    (by decide) (by decide) (by decide) (by decide) (by decide)

/-- C7 counterexample: a file whose extraction reports `SchemaUrlNotFound`.
The claim predicts a `Skipped` outcome with reason `no schema URL`; the
source skips with the reason string `No schema URL found in XML file`. -/
theorem c7_skip_reason_counterexample :
    skippedRun.1.status = .Skipped "No schema URL found in XML file" ∧
    skippedRun.1.status ≠ .Skipped "no schema URL" ∧
    skippedRun.2 = [] :=
  ⟨rfl, by decide, rfl⟩

/-- C7 amended: a file declaring neither schema-location attribute — the
extractor yields no references (`SchemaUrlNotFound`, or an empty list) —
gets the outcome `Skipped` with reason `No schema URL found in XML file`,
and no schema resolution or engine work is requested for it, whatever the
resolver and engine would do. -/
theorem c7_no_schema_skip (path : String)
    (extract : Except VError (List SchemaReference))
    (resolveSchema : String → Except VError Unit)
    (engineValidate : String → JoinResult (Except VError EngineValidationResult))
    (h : extract = .ok [] ∨ ∃ f, extract = .error (.SchemaUrlNotFound f)) :
    validate_single_file_internal path extract resolveSchema engineValidate =
      (FileValidationResult.skipped path "No schema URL found in XML file" 0, []) := by
  rcases h with h | ⟨f, h⟩ <;> subst h <;> rfl

/-- C7 witness: the amended theorem at a concrete file with a resolver and
engine that would succeed if they were ever consulted. -/
theorem c7_no_schema_skip_witness :
    validate_single_file_internal "f.xml" (.error (.SchemaUrlNotFound "f.xml"))
      (fun _ => .ok ()) (fun _ => .joined (.ok .Valid)) =
      (FileValidationResult.skipped "f.xml" "No schema URL found in XML file" 0, []) :=
  c7_no_schema_skip "f.xml" (.error (.SchemaUrlNotFound "f.xml"))
    (fun _ => .ok ()) (fun _ => .joined (.ok .Valid)) (Or.inr ⟨"f.xml", rfl⟩)

/-- Successful task collection preserves the number and order of tasks. -/
theorem collectTaskResults_ok :
    ∀ (xs : List (Except VError FileValidationResult)) (rs : List FileValidationResult),
      collectTaskResults xs = .ok rs →
      rs.length = xs.length ∧ ∀ i, xs.get? i = (rs.get? i).map Except.ok
  | [], rs, h => by
    simp [collectTaskResults] at h
    subst h
    exact ⟨rfl, fun i => by simp⟩
  | .error e :: xs, rs, h => by simp [collectTaskResults] at h
  | .ok r :: xs, rs, h => by
    simp only [collectTaskResults] at h
    cases hrec : collectTaskResults xs with
    | error e2 => rw [hrec] at h; exact absurd h (by simp)
    | ok rs2 =>
      rw [hrec] at h
      simp at h
      subst h
      obtain ⟨hlen, hget⟩ := collectTaskResults_ok xs rs2 hrec
      refine ⟨by simp [hlen], fun i => ?_⟩
      cases i with
      | zero => simp
      | succ n => simpa using hget n

/-- The four status counters sum to the number of results. -/
theorem aggregateCounts_total :
    ∀ (rs : List FileValidationResult),
      (aggregateCounts rs).1 + (aggregateCounts rs).2.1 +
        (aggregateCounts rs).2.2.1 + (aggregateCounts rs).2.2.2 = rs.length
  | [] => rfl
  | r :: rs => by
    have ih := aggregateCounts_total rs
    rcases hAc : aggregateCounts rs with ⟨v, i, e, s⟩
    rw [hAc] at ih
    simp only at ih
    simp only [aggregateCounts, hAc]
    cases r.status <;> simp <;> omega

/-- Membership after one schemas-used insertion step. -/
theorem mem_schemas_insert (acc : List String) (r : FileValidationResult) (u : String) :
    u ∈ schemasInsert acc r ↔ u ∈ acc ∨ r.schema_url = some u := by
  cases hu : r.schema_url with
  | none => simp [schemasInsert, hu]
  | some v =>
    by_cases hv : v ∈ acc
    · rw [show schemasInsert acc r = acc by unfold schemasInsert; rw [hu]; exact if_pos hv]
      constructor
      · exact Or.inl
      · rintro (h | h)
        · exact h
        · have : v = u := by simpa using h
          exact this ▸ hv
    · rw [show schemasInsert acc r = v :: acc by unfold schemasInsert; rw [hu]; exact if_neg hv]
      simp [List.mem_cons, eq_comm]
      tauto

/-- Membership in the schemas-used fold. -/
theorem mem_schemas_foldl :
    ∀ (rs : List FileValidationResult) (acc : List String) (u : String),
      u ∈ rs.foldl schemasInsert acc ↔ u ∈ acc ∨ ∃ r ∈ rs, r.schema_url = some u
  | [], acc, u => by simp
  | r :: rs, acc, u => by
    rw [List.foldl_cons, mem_schemas_foldl rs (schemasInsert acc r) u,
      mem_schemas_insert acc r u]
    simp only [List.exists_mem_cons_iff]
    tauto

/-- The schemas-used fold never adds a duplicate. -/
theorem nodup_schemas_foldl :
    ∀ (rs : List FileValidationResult) (acc : List String),
      acc.Nodup → (rs.foldl schemasInsert acc).Nodup
  | [], acc, h => h
  | r :: rs, acc, h => by
    rw [List.foldl_cons]
    refine nodup_schemas_foldl rs _ ?_
    cases hu : r.schema_url with
    | none => simpa [schemasInsert, hu] using h
    | some v =>
      by_cases hv : v ∈ acc
      · rw [show schemasInsert acc r = acc by unfold schemasInsert; rw [hu]; exact if_pos hv]
        exact h
      · rw [show schemasInsert acc r = v :: acc by unfold schemasInsert; rw [hu]; exact if_neg hv]
        exact List.Nodup.cons hv h

/-- C5: a successful run yields exactly one outcome per discovered file, in
order; the aggregate's total equals the outcome count and splits exactly
into valid + invalid + error + skipped; and `schemas_used` is precisely the
set of distinct schema URIs appearing in the outcomes. -/
theorem c5_outcome_coverage (task : String → Except VError FileValidationResult)
    (files : List String) (rs : List FileValidationResult)
    (h : validate_files_with_progress task files = .ok rs) :
    rs.length = files.length ∧
    (∀ i, (files.map task).get? i = (rs.get? i).map Except.ok) ∧
    (aggregate rs).total_files = rs.length ∧
    (aggregate rs).total_files =
      (aggregate rs).valid_files + (aggregate rs).invalid_files +
        (aggregate rs).error_files + (aggregate rs).skipped_files ∧
    (aggregate rs).schemas_used.Nodup ∧
    (∀ u, u ∈ (aggregate rs).schemas_used ↔ ∃ r ∈ rs, r.schema_url = some u) := by
  obtain ⟨hlen, hget⟩ := collectTaskResults_ok (files.map task) rs h
  refine ⟨by simpa using hlen, hget, rfl, ?_, ?_, ?_⟩
  · show rs.length = (aggregateCounts rs).1 + (aggregateCounts rs).2.1 +
      (aggregateCounts rs).2.2.1 + (aggregateCounts rs).2.2.2
    exact (aggregateCounts_total rs).symm
  · exact nodup_schemas_foldl rs [] List.nodup_nil
  · intro u
    show u ∈ rs.foldl schemasInsert [] ↔ _
    rw [mem_schemas_foldl rs [] u]
    simp

/-- C5 witness: a two-file run where every task succeeds, instantiating the
coverage equality. -/
theorem c5_outcome_coverage_witness :
    ([FileValidationResult.valid "a.xml" "http://example.com/s.xsd" 0,
      FileValidationResult.valid "b.xml" "http://example.com/s.xsd" 0].length =
      (["a.xml", "b.xml"] : List String).length) :=
  (c5_outcome_coverage taskAllValid ["a.xml", "b.xml"]
    [FileValidationResult.valid "a.xml" "http://example.com/s.xsd" 0,
     FileValidationResult.valid "b.xml" "http://example.com/s.xsd" 0] rfl).1

/-- `DiskCache::remove` leaves no record under the key. -/
theorem lookupRec_remove {α : Type} :
    ∀ (l : List (String × α)) (k : String),
      lookupRec (l.filter (fun p => !(p.1 == k))) k = none
  | [], k => rfl
  | p :: l, k => by
    by_cases hp : (p.1 == k) = true
    · simp only [List.filter_cons, hp, Bool.not_true, Bool.false_eq_true, if_false]
      exact lookupRec_remove l k
    · rw [Bool.not_eq_true] at hp
      simp only [List.filter_cons, hp, Bool.not_false, if_true]
      unfold lookupRec
      rw [List.find?_cons, hp]
      exact lookupRec_remove l k

/-- C8: `disk_cache.get` returns `None` whenever the data record or the
metadata record is missing or the metadata's `expires_at` lies strictly in
the past (`now > expires_at`); an expired entry is removed — neither its
data nor its metadata record survives the call — and is never returned. -/
theorem c8_ttl_honesty (st : DiskState) (now : Int) (key : String)
    (hnc : lookupRec st.meta_records key ≠ some MetaRecord.corrupt) :
    ((lookupRec st.meta_records key = none ∨ lookupRec st.data_records key = none ∨
      (∃ m, lookupRec st.meta_records key = some (.parsed m) ∧ m.is_expired now = true)) →
      (DiskCache.get st now key).1 = .ok none) ∧
    (∀ m, lookupRec st.meta_records key = some (.parsed m) → m.is_expired now = true →
      lookupRec (DiskCache.get st now key).2.meta_records key = none ∧
      lookupRec (DiskCache.get st now key).2.data_records key = none) := by
  cases hm : lookupRec st.meta_records key with
  | none =>
    have hg : get_metadata st key = .ok none := by unfold get_metadata; rw [hm]
    have hr : DiskCache.get st now key = (.ok none, diskRemove st key) := by
      unfold DiskCache.get; rw [hg]
    refine ⟨fun _ => by rw [hr], fun m hmm => ?_⟩
    exact absurd hmm (by simp)
  | some rec =>
    cases rec with
    | corrupt => exact absurd hm hnc
    | parsed m =>
      have hg : get_metadata st key = .ok (some m) := by unfold get_metadata; rw [hm]
      by_cases hexp : m.is_expired now = true
      · have hr : DiskCache.get st now key = (.ok none, diskRemove st key) := by
          unfold DiskCache.get
          rw [hg]
          simp only [hexp, Bool.not_true, Bool.false_eq_true, if_false]
        refine ⟨fun _ => by rw [hr], fun m2 hm2 _ => ?_⟩
        rw [hr]
        exact ⟨lookupRec_remove st.meta_records key, lookupRec_remove st.data_records key⟩
      · rw [Bool.not_eq_true] at hexp
        refine ⟨?_, fun m2 hm2 hexp2 => ?_⟩
        · rintro (h | h | ⟨m3, hm3, hexp3⟩)
          · exact absurd h (by simp)
          · have hr : DiskCache.get st now key = (.ok none, st) := by
              unfold DiskCache.get
              rw [hg]
              simp only [hexp, Bool.not_false, if_true]
              rw [h]
            rw [hr]
          · have hm3e : m3 = m := by simpa using hm3.symm
            subst hm3e
            rw [hexp3] at hexp
            exact absurd hexp (by simp)
        · have hm2e : m2 = m := by simpa using hm2.symm
          subst hm2e
          rw [hexp2] at hexp
          exact absurd hexp (by simp)

/-- C8 witness: a concrete entry read one instant after its expiry. -/
theorem c8_ttl_honesty_witness :
    (DiskCache.get diskSample 11 "schema_k").1 = .ok none ∧
    lookupRec (DiskCache.get diskSample 11 "schema_k").2.meta_records "schema_k" = none ∧
    lookupRec (DiskCache.get diskSample 11 "schema_k").2.data_records "schema_k" = none :=
  ⟨(c8_ttl_honesty diskSample 11 "schema_k" (by decide)).1
      (Or.inr (Or.inr ⟨metaSample, rfl, by decide⟩)),
   ((c8_ttl_honesty diskSample 11 "schema_k" (by decide)).2 metaSample rfl (by decide)).1,
   ((c8_ttl_honesty diskSample 11 "schema_k" (by decide)).2 metaSample rfl (by decide)).2⟩


/-- A 5xx status is not a success status. -/
theorem server_error_not_success (s : Nat) (h : statusIsServerError s = true) :
    statusIsSuccess s = false := by
  simp [statusIsSuccess, statusIsServerError] at *
  omega

/-- A 4xx status is not a success status. -/
theorem client_error_not_success (s : Nat) (h : statusIsClientError s = true) :
    statusIsSuccess s = false := by
  simp [statusIsSuccess, statusIsClientError] at *
  omega

/-- A 4xx status is not a server-error status. -/
theorem client_error_not_server (s : Nat) (h : statusIsClientError s = true) :
    statusIsServerError s = false := by
  simp [statusIsServerError, statusIsClientError] at *
  omega

/-- A 4xx response fails at once with `HttpStatus` and sleeps no backoff. -/
theorem retry_4xx_immediate (cfg : HttpClientConfig) (url : String)
    (oracle : Nat → RequestOutcome) (a s : Nat)
    (ho : oracle a = .response s) (hc : statusIsClientError s = true) :
    get_response_with_retry cfg url oracle a =
      (.error (.HttpStatus url s ("HTTP " ++ toString s)), []) := by
  unfold get_response_with_retry
  rw [ho]
  simp [client_error_not_success s hc, client_error_not_server s hc]

/-- After `k` retryable failures and then a success, the loop returns the
successful status having slept exactly the `k` backoff delays in order. -/
theorem retry_success_trace (cfg : HttpClientConfig) (url : String)
    (oracle : Nat → RequestOutcome) :
    ∀ (k a s : Nat),
      a + k ≤ cfg.retry_attempts →
      (∀ i, i < k → retryableOutcome (oracle (a + i)) = true) →
      oracle (a + k) = .response s → statusIsSuccess s = true →
      get_response_with_retry cfg url oracle a =
        (.ok s, (List.range k).map (fun i => wait_before_retry_delay cfg (a + i)))
  | 0, a, s, hb, hf, ho, hs => by
    rw [Nat.add_zero] at ho
    unfold get_response_with_retry
    rw [ho]
    simp [hs]
  | k + 1, a, s, hb, hf, ho, hs => by
    have h0 : retryableOutcome (oracle a) = true := by
      have := hf 0 (Nat.succ_pos k)
      simpa using this
    have ih := retry_success_trace cfg url oracle k (a + 1) s (by omega)
      (fun i hi => by
        have := hf (i + 1) (by omega)
        have he : a + (i + 1) = a + 1 + i := by omega
        rw [he] at this
        exact this)
      (by
        have he : a + 1 + k = a + (k + 1) := by omega
        rw [he]
        exact ho)
      hs
    have hwaits : (List.range (k + 1)).map (fun i => wait_before_retry_delay cfg (a + i)) =
        wait_before_retry_delay cfg a ::
          (List.range k).map (fun i => wait_before_retry_delay cfg (a + 1 + i)) := by
      rw [List.range_succ_eq_map, List.map_cons, List.map_map]
      refine congrArg (wait_before_retry_delay cfg a :: ·) ?_
      refine List.map_congr_left (fun i _ => ?_)
      have he : a + (i + 1) = a + 1 + i := by omega
      simp [Function.comp, he]
    have haR : a < cfg.retry_attempts := by omega
    unfold get_response_with_retry
    cases hoa : oracle a with
    | response s5 =>
      have hsrv : statusIsServerError s5 = true := by
        have := h0
        rw [hoa] at this
        simpa [retryableOutcome] using this
      simp [server_error_not_success s5 hsrv, hsrv, haR, ih, hwaits]
    | transportError rb =>
      have hrb : rb = true := by
        have := h0
        rw [hoa] at this
        simpa [retryableOutcome] using this
      subst hrb
      simp [haR, ih, hwaits]
    | timedOut =>
      simp [haR, ih, hwaits]

/-- When every attempt fails retryably, the loop stops after
`retry_attempts` retries, sleeping each backoff delay once. -/
theorem retry_exhaustion (cfg : HttpClientConfig) (url : String)
    (oracle : Nat → RequestOutcome) :
    ∀ (n a : Nat), n = cfg.retry_attempts - a → a ≤ cfg.retry_attempts →
      (∀ i, retryableOutcome (oracle i) = true) →
      ∃ e, get_response_with_retry cfg url oracle a =
        (.error e, (List.range n).map (fun i => wait_before_retry_delay cfg (a + i)))
  | 0, a, hn, hb, hf => by
    have ha : a = cfg.retry_attempts := by omega
    unfold get_response_with_retry
    cases hoa : oracle a with
    | response s5 =>
      have hsrv : statusIsServerError s5 = true := by
        have := hf a
        rw [hoa] at this
        simpa [retryableOutcome] using this
      refine ⟨.HttpStatus url s5 ("HTTP " ++ toString s5), ?_⟩
      simp [server_error_not_success s5 hsrv, ha]
    | transportError rb =>
      refine ⟨.Http rb, ?_⟩
      simp [ha]
    | timedOut =>
      refine ⟨.Timeout url cfg.timeout_seconds, ?_⟩
      simp [ha]
  | n + 1, a, hn, hb, hf => by
    have haR : a < cfg.retry_attempts := by omega
    obtain ⟨e, ih⟩ := retry_exhaustion cfg url oracle n (a + 1) (by omega) (by omega) hf
    have hwaits : (List.range (n + 1)).map (fun i => wait_before_retry_delay cfg (a + i)) =
        wait_before_retry_delay cfg a ::
          (List.range n).map (fun i => wait_before_retry_delay cfg (a + 1 + i)) := by
      rw [List.range_succ_eq_map, List.map_cons, List.map_map]
      refine congrArg (wait_before_retry_delay cfg a :: ·) ?_
      refine List.map_congr_left (fun i _ => ?_)
      have he : a + (i + 1) = a + 1 + i := by omega
      simp [Function.comp, he]
    refine ⟨e, ?_⟩
    unfold get_response_with_retry
    cases hoa : oracle a with
    | response s5 =>
      have hsrv : statusIsServerError s5 = true := by
        have := hf a
        rw [hoa] at this
        simpa [retryableOutcome] using this
      simp [server_error_not_success s5 hsrv, hsrv, haR, ih, hwaits]
    | transportError rb =>
      have hrb : rb = true := by
        have := hf a
        rw [hoa] at this
        simpa [retryableOutcome] using this
      subst hrb
      simp [haR, ih, hwaits]
    | timedOut =>
      simp [haR, ih, hwaits]

/-- C9: a 4xx response fails immediately with `HttpStatus` and no retry; a
5xx response, retryable transport error or timeout is retried up to
`retry_attempts` times, sleeping `min(base * 2^attempt, cap)` before each
retry (exactly, whenever the u64 product does not overflow). -/
theorem c9_retry_policy :
    (∀ (cfg : HttpClientConfig) (url : String) (oracle : Nat → RequestOutcome) (a s : Nat),
      oracle a = .response s → statusIsClientError s = true →
      get_response_with_retry cfg url oracle a =
        (.error (.HttpStatus url s ("HTTP " ++ toString s)), [])) ∧
    (∀ (cfg : HttpClientConfig) (url : String) (oracle : Nat → RequestOutcome) (k a s : Nat),
      a + k ≤ cfg.retry_attempts →
      (∀ i, i < k → retryableOutcome (oracle (a + i)) = true) →
      oracle (a + k) = .response s → statusIsSuccess s = true →
      get_response_with_retry cfg url oracle a =
        (.ok s, (List.range k).map (fun i => wait_before_retry_delay cfg (a + i)))) ∧
    (∀ (cfg : HttpClientConfig) (url : String) (oracle : Nat → RequestOutcome),
      (∀ i, retryableOutcome (oracle i) = true) →
      ∃ e, get_response_with_retry cfg url oracle 0 =
        (.error e,
         (List.range cfg.retry_attempts).map (fun i => wait_before_retry_delay cfg i))) ∧
    (∀ (cfg : HttpClientConfig) (attempt : Nat),
      cfg.retry_delay_ms * 2 ^ attempt < 2 ^ 64 →
      wait_before_retry_delay cfg attempt =
        min (cfg.retry_delay_ms * 2 ^ attempt) cfg.max_retry_delay_ms) := by
  refine ⟨retry_4xx_immediate, retry_success_trace, fun cfg url oracle hf => ?_, ?_⟩
  · obtain ⟨e, he⟩ := retry_exhaustion cfg url oracle (cfg.retry_attempts - 0) 0 rfl
      (Nat.zero_le _) hf
    refine ⟨e, ?_⟩
    simpa [Nat.zero_add] using he
  · intro cfg attempt h
    unfold wait_before_retry_delay
    rw [Nat.mod_eq_of_lt h]

/-- C9 witness: the default config with a 404 oracle (immediate failure),
a twice-503-then-200 oracle (two backoffs then success), and the second
backoff delay. -/
theorem c9_retry_policy_witness :
    get_response_with_retry httpCfgDefault "http://example.com/s.xsd"
      (fun _ => .response 404) 0 =
      (.error (.HttpStatus "http://example.com/s.xsd" 404 ("HTTP " ++ toString 404)), []) ∧
    get_response_with_retry httpCfgDefault "http://example.com/s.xsd"
      (fun n => if n < 2 then .response 503 else .response 200) 0 =
      (.ok 200,
       (List.range 2).map (fun i => wait_before_retry_delay httpCfgDefault (0 + i))) ∧
    wait_before_retry_delay httpCfgDefault 1 =
      min (httpCfgDefault.retry_delay_ms * 2 ^ 1) httpCfgDefault.max_retry_delay_ms :=
  ⟨c9_retry_policy.1 httpCfgDefault "http://example.com/s.xsd" (fun _ => .response 404) 0 404
    rfl (by decide),
   c9_retry_policy.2.1 httpCfgDefault "http://example.com/s.xsd"
    (fun n => if n < 2 then .response 503 else .response 200) 2 0 200 (by decide)
    (fun i hi => by
      have h2 : 0 + i < 2 := by omega
      simp [h2, hi, retryableOutcome, statusIsServerError])
    (by rfl) (by decide),
   c9_retry_policy.2.2.2 httpCfgDefault 1 (by decide)⟩


/-- A scheduling step never reads the configuration: the spawn loop of
`validate_files_with_progress` contains no occurrence of `fail_fast`. -/
theorem orchStep_cfg_irrel (cfg cfg2 : ValidationConfig) (outcome : String → ValidationStatus)
    (st : OrchState) (ev : OrchEvent) :
    orchStep cfg outcome st ev = orchStep cfg2 outcome st ev := rfl

/-- Whole runs are independent of the configuration. -/
theorem orchRun_cfg_irrel (cfg cfg2 : ValidationConfig) (outcome : String → ValidationStatus) :
    ∀ (st : OrchState) (tr : List OrchEvent),
      orchRun cfg outcome st tr = orchRun cfg2 outcome st tr
  | st, [] => rfl
  | st, ev :: tr => by
    unfold orchRun
    have he : orchStep cfg2 outcome st ev = orchStep cfg outcome st ev := rfl
    rw [he]
    cases orchStep cfg outcome st ev with
    | none => rfl
    | some st2 => exact orchRun_cfg_irrel cfg cfg2 outcome st2 tr

/-- One step preserves the multiset of files across the three queues, and
only adds completions carrying the task body's outcome. -/
theorem orchStep_multiset (cfg : ValidationConfig) (outcome : String → ValidationStatus)
    (st : OrchState) (ev : OrchEvent) (st2 : OrchState)
    (h : orchStep cfg outcome st ev = some st2) :
    ((st2.pending : Multiset String) + ↑st2.in_flight + ↑(st2.completed.map Prod.fst) =
      (st.pending : Multiset String) + ↑st.in_flight + ↑(st.completed.map Prod.fst)) ∧
    (∀ pr ∈ st2.completed, pr ∈ st.completed ∨ pr.2 = outcome pr.1) := by
  cases ev with
  | spawn f =>
    cases hp : st.pending with
    | nil => simp [orchStep, hp] at h
    | cons p rest =>
      by_cases hpf : p = f
      · simp only [orchStep, hp, if_pos hpf] at h
        injection h with h
        subst h
        subst hpf
        refine ⟨?_, fun pr hpr => Or.inl hpr⟩
        simp only [hp]
        rw [← Multiset.cons_coe, ← Multiset.coe_add]
        simp only [Multiset.coe_singleton]
        rw [← Multiset.singleton_add]
        abel
      · simp [orchStep, hp, if_neg hpf] at h
  | complete f stv =>
    by_cases hc : f ∈ st.in_flight ∧ stv = outcome f
    · simp only [orchStep, if_pos hc] at h
      injection h with h
      subst h
      refine ⟨?_, fun pr hpr => ?_⟩
      · simp only [List.map_append, List.map_cons, List.map_nil]
        rw [show ((st.completed.map Prod.fst ++ [f] : List String) : Multiset String) =
          ↑(st.completed.map Prod.fst) + ↑([f] : List String) from (Multiset.coe_add _ _).symm]
        rw [show (([f] : List String) : Multiset String) = f ::ₘ 0 from rfl]
        rw [show ((st.in_flight.erase f : List String) : Multiset String) =
          (↑st.in_flight : Multiset String).erase f from (Multiset.coe_erase _ _).symm]
        have hfe : f ::ₘ (↑st.in_flight : Multiset String).erase f = ↑st.in_flight :=
          Multiset.cons_erase (by exact_mod_cast hc.1)
        rw [← Multiset.singleton_add] at hfe
        rw [Multiset.cons_zero]
        nth_rewrite 2 [← hfe]
        abel
      · rcases List.mem_append.mp hpr with h3 | h3
        · exact Or.inl h3
        · right
          have hpr2 : pr = (f, stv) := by simpa using h3
          subst hpr2
          exact hc.2
    · simp [orchStep, if_neg hc] at h

/-- The run-level invariant: the files across pending/in-flight/completed
are conserved, and completed outcomes are the task outcomes. -/
theorem orchRun_invariant (cfg : ValidationConfig) (outcome : String → ValidationStatus) :
    ∀ (tr : List OrchEvent) (st stF : OrchState),
      orchRun cfg outcome st tr = some stF →
      ((stF.pending : Multiset String) + ↑stF.in_flight + ↑(stF.completed.map Prod.fst) =
        (st.pending : Multiset String) + ↑st.in_flight + ↑(st.completed.map Prod.fst)) ∧
      ((∀ pr ∈ st.completed, pr.2 = outcome pr.1) →
        ∀ pr ∈ stF.completed, pr.2 = outcome pr.1)
  | [], st, stF, h => by
    simp [orchRun] at h
    subst h
    exact ⟨rfl, fun hc => hc⟩
  | ev :: tr, st, stF, h => by
    unfold orchRun at h
    cases hstep : orchStep cfg outcome st ev with
    | none => rw [hstep] at h; exact absurd h (by simp)
    | some st2 =>
      rw [hstep] at h
      obtain ⟨hmul2, hout2⟩ := orchStep_multiset cfg outcome st ev st2 hstep
      obtain ⟨hmul, hout⟩ := orchRun_invariant cfg outcome tr st2 stF h
      refine ⟨by rw [hmul, hmul2], fun hc => ?_⟩
      refine hout (fun pr hpr => ?_)
      rcases hout2 pr hpr with h3 | h3
      · exact hc pr h3
      · exact h3

/-- C1 counterexample: with `fail_fast = true`, the source admits the
execution in which the task of `a.xml` is spawned, completes with a
non-Valid outcome, and the orchestrator then spawns the task of `b.xml` —
a new task scheduled after the first non-Valid outcome completed. -/
theorem c1_fail_fast_counterexample :
    orchTraceValid cfgFailFast outcomeAB ["a.xml", "b.xml"] trFailFast = true ∧
    cfgFailFast.fail_fast = true ∧
    trFailFast.get? 0 = some (.spawn "a.xml") ∧
    trFailFast.get? 1 = some (.complete "a.xml" (.Invalid 1)) ∧
    (ValidationStatus.Invalid 1).is_valid = false ∧
    trFailFast.get? 2 = some (.spawn "b.xml") := by
  refine ⟨by decide, rfl, rfl, rfl, rfl, rfl⟩

/-- C1 amended: `fail_fast` has no effect on scheduling — the valid
executions are the same for every configuration, every completed run has
completed exactly the discovered files (one outcome each, the outcome the
task body computes) — and `fail_fast` only changes the exit code in
`main` (1 exactly when some outcome is invalid or an error). -/
theorem c1_fail_fast_no_scheduling_effect :
    (∀ (cfg cfg2 : ValidationConfig) (outcome : String → ValidationStatus)
      (files : List String) (tr : List OrchEvent),
      orchTraceValid cfg outcome files tr = orchTraceValid cfg2 outcome files tr) ∧
    (∀ (cfg : ValidationConfig) (outcome : String → ValidationStatus)
      (files : List String) (tr : List OrchEvent) (stF : OrchState),
      cfg.fail_fast = true →
      orchRun cfg outcome ⟨files, [], []⟩ tr = some stF →
      stF.pending = [] → stF.in_flight = [] →
      files.Perm (stF.completed.map Prod.fst) ∧
      stF.completed.length = files.length ∧
      (∀ pr ∈ stF.completed, pr.2 = outcome pr.1)) ∧
    (∀ r : ValidationResults, mainExitCode r true = 1 ↔ has_errors r = true) := by
  refine ⟨?_, ?_, ?_⟩
  · intro cfg cfg2 outcome files tr
    unfold orchTraceValid
    rw [orchRun_cfg_irrel cfg cfg2 outcome]
  · intro cfg outcome files tr stF _ hrun hp hf
    obtain ⟨hmul, hout⟩ := orchRun_invariant cfg outcome tr ⟨files, [], []⟩ stF hrun
    rw [hp, hf] at hmul
    simp only [List.map_nil, Multiset.coe_nil] at hmul
    have hmul2 : ((stF.completed.map Prod.fst : List String) : Multiset String) =
        (files : Multiset String) := by
      simpa using hmul
    have hperm : files.Perm (stF.completed.map Prod.fst) :=
      (Multiset.coe_eq_coe.mp hmul2).symm
    refine ⟨hperm, ?_, hout (by simp)⟩
    have := hperm.length_eq
    simpa using this.symm
  · intro r
    unfold mainExitCode
    by_cases he : has_errors r = true
    · simp [he]
    · rw [Bool.not_eq_true] at he
      have he1 : r.error_files = 0 ∧ r.invalid_files = 0 := by
        unfold has_errors at he
        simp at he
        omega
      rw [he]
      simp [he, he1.1, he1.2]


/-- C1 witness: a completed two-file run with `fail_fast = true` still
completes both files. -/
theorem c1_fail_fast_no_scheduling_effect_witness :
    (["a.xml", "b.xml"] : List String).Perm
      ([("a.xml", ValidationStatus.Invalid 1), ("b.xml", ValidationStatus.Valid)].map Prod.fst) :=
  (c1_fail_fast_no_scheduling_effect.2.1 cfgFailFast outcomeAB ["a.xml", "b.xml"] trComplete
    ⟨[], [], [("a.xml", .Invalid 1), ("b.xml", .Valid)]⟩ rfl (by decide) rfl rfl).1

/-- C4: the source's only constraint on schema parses is the per-URI
single-flight of `try_get_with`; the loaders of distinct URIs run on
independent blocking workers with no lock around `parse_schema_from_memory`.
Hence a trace in which the parses of two distinct schema URIs are in flight
at the same instant is a permitted execution — contradicting both the spec
and libxml2.rs's own documentation that parsing must be serialized
process-wide. -/
theorem c4_concurrent_parses_admitted :
    parseTraceOk [] trTwoParses = true ∧
    (parsesActiveAfter [] (trTwoParses.take 2)).length = 2 ∧
    (("http://example.com/s1.xsd" : String) = "http://example.com/s2.xsd" → False) :=
  ⟨by decide, by decide, by decide⟩

end ValidateXml
